import Mathlib

/-!
Verification of the model-store module (src/utils/get_models.py) of the
ultimatevocalremover_api repository.

The module is embedded shallowly:

* the filesystem is a value of type FS holding the set of regular-file paths
  and explicitly created directory paths (a path is a list of components,
  mirroring os.path.join);
* os.path.exists / isfile / isdir / listdir / makedirs are functions on FS,
  with listdir fallible (Except) exactly as the Python call can raise
  NotADirectoryError / FileNotFoundError;
* the network is a function from URL to Bool (urlretrieve success), and each
  attempted urlretrieve is recorded in an access trace;
* the optional logger is a Bool plus an accumulated list of log messages;
* a missing manifest entry (Python KeyError) is the error of an Except.

String helpers (str.split, os.path.splitext, str.endswith) are implemented
structurally over the character list so that they reduce in the kernel.
-/

/-- A filesystem path as a list of components (os.path.join adds one). -/
abbrev FsPath := List String

/-- Filesystem state: the regular files present and the directories that were
explicitly created.  Ancestors of any present path are implicitly
directories, as on a real filesystem. -/
structure FS where
  files : List FsPath
  dirs : List FsPath
deriving DecidableEq

/-- os.path.isfile: the path is one of the regular files. -/
def FS.isfile (fs : FS) (p : FsPath) : Bool :=
  fs.files.contains p

/-- os.path.isdir: the path is an explicitly created directory, an ancestor
of one, or a proper ancestor of a regular file. -/
def FS.isdir (fs : FS) (p : FsPath) : Bool :=
  fs.dirs.any (fun d => List.isPrefixOf p d) ||
    fs.files.any (fun f => List.isPrefixOf p f && p != f)

/-- os.path.exists: a file or a directory. -/
def FS.pathExists (fs : FS) (p : FsPath) : Bool :=
  fs.isfile p || fs.isdir p

/-- Keep the first occurrence of each element, dropping later duplicates. -/
def dedupFirst (seen : List String) : List String → List String
  | [] => []
  | x :: xs => if x ∈ seen then dedupFirst seen xs else x :: dedupFirst (x :: seen) xs

/-- The entry name a path q contributes to a listing of directory d. -/
def childName (d : FsPath) (q : FsPath) : Option String :=
  if List.isPrefixOf d q then (List.drop d.length q).head? else none

/-- The entry names of directory d: next components of every present path
below d, first occurrence first. -/
def FS.childNames (fs : FS) (d : FsPath) : List String :=
  dedupFirst [] ((fs.files ++ fs.dirs).filterMap (childName d))

/-- Errors surfaced by the embedded OS / manifest operations. -/
inductive OsError where
  | notADir
  | keyError
deriving DecidableEq

/-- os.listdir: raises when the path is not a directory (this also covers a
missing path, as in Python). -/
def listdir (fs : FS) (p : FsPath) : Except OsError (List String) :=
  if fs.isdir p then .ok (fs.childNames p) else .error .notADir

/-- os.makedirs guarded by the os.path.exists check that precedes it in the
source: creates the directory (ancestors are implicit) when absent. -/
def ensureDir (fs : FS) (p : FsPath) : FS :=
  if fs.pathExists p then fs else ⟨fs.files, fs.dirs ++ [p]⟩

/-- urlretrieve writing its target file. -/
def addFile (fs : FS) (p : FsPath) : FS :=
  ⟨fs.files ++ [p], fs.dirs⟩

/-- str.split(c) over the character list, with Python semantics:
splitOnChar c [] = [[]]. -/
def splitOnChar (c : Char) : List Char → List (List Char)
  | [] => [[]]
  | x :: xs =>
    if x == c then [] :: splitOnChar c xs
    else
      match splitOnChar c xs with
      | [] => [[x]]
      | y :: ys => (x :: y) :: ys

/-- Python name.split('.'). -/
def strSplitDot (s : String) : List String :=
  (splitOnChar '.' s.data).map (fun l => ⟨l⟩)

/-- Python path.split('/')[-1]: the last slash-separated component. -/
def lastComp (s : String) : String :=
  ((splitOnChar '/' s.data).map (fun l => (⟨l⟩ : String))).getLastD s

/-- Index of the last dot of a character list, if any. -/
def lastDotPos (l : List Char) : Option Nat :=
  match l.reverse.findIdx? (fun c => c == '.') with
  | none => none
  | some i => some (l.length - 1 - i)

/-- os.path.splitext: split off the final extension; leading dots of the
name never start an extension. -/
def splitext (s : String) : String × String :=
  let cs := s.data
  let k := (cs.takeWhile (fun c => c == '.')).length
  match lastDotPos (cs.drop k) with
  | none => (s, "")
  | some i => (⟨cs.take (k + i)⟩, ⟨cs.drop (k + i)⟩)

/-- Python s.endswith(suffix). -/
def strEndsWith (s suffix : String) : Bool :=
  List.isSuffixOf suffix.data s.data

/-- file.endswith(('.onnx', '.pth', '.ckpt')). -/
def isModelFile (f : String) : Bool :=
  strEndsWith f ".onnx" || strEndsWith f ".pth" || strEndsWith f ".ckpt"

/-- The module-level constant uvr_path is passed explicitly as the uvr
argument of every operation below. -/
def defaultSavePath (uvr : FsPath) (model_arch model_name : String) : FsPath :=
  uvr ++ ["models_dir", model_arch, "weights", model_name]

/-- The extension-stripping step of model_exists_in_package:
model_name.split('.')[0] when the name contains a dot. -/
def stripDots (name : String) : String :=
  if (strSplitDot name).length > 1 then (strSplitDot name).headD name else name

/-- The directory model_exists_in_package resolves and checks. -/
def mepDir (uvr : FsPath) (model_name model_arch : String)
    (save_path : Option FsPath) : FsPath :=
  save_path.getD (defaultSavePath uvr model_arch (stripDots model_name))

/-- model_exists_in_package: strips the name, resolves the directory, requires
every listed file (if a list is given), then requires the directory path to
exist. -/
def model_exists_in_package (uvr : FsPath) (model_name model_arch : String)
    (save_path : Option FsPath) (files : Option (List String)) (fs : FS) : Bool :=
  let sp := mepDir uvr model_name model_arch save_path
  (match files with
   | some fl => fl.all (fun f => fs.isfile (sp ++ [f]))
   | none => true) && fs.pathExists sp

/-- The predicate of the final scan loop of get_model_path: a directory entry
that is a regular file whose base name equals the requested name. -/
def scanPred (fs : FS) (dir : FsPath) (name : String) (f : String) : Bool :=
  fs.isfile (dir ++ [f]) && ((splitext f).1 == name)

/-- get_model_path: no-extension names first search a same-named subdirectory
for a model-extension entry, then scan the directory for a matching base
name; names with an extension are looked up exactly. -/
def get_model_path (fs : FS) (model_name : String) (model_dir : FsPath) :
    Except OsError (Option FsPath) :=
  if fs.pathExists model_dir = false then .ok none
  else if (splitext model_name).2 ≠ "" then
    (if (fs.pathExists (model_dir ++ [model_name]) &&
          fs.isfile (model_dir ++ [model_name])) = true then
      .ok (some (model_dir ++ [model_name]))
    else .ok none)
  else
    match (if fs.isdir (model_dir ++ [model_name]) = true then
            (fs.childNames (model_dir ++ [model_name])).find? isModelFile
          else none) with
    | some f => .ok (some (model_dir ++ [model_name] ++ [f]))
    | none =>
      match listdir fs model_dir with
      | .error e => .error e
      | .ok entries =>
        match entries.find? (scanPred fs model_dir model_name) with
        | some f => .ok (some (model_dir ++ [f]))
        | none => .ok none

/-- Log messages emitted by the module (the formatted text is elided; each
constructor records the level and the data the f-string interpolates). -/
inductive LogMsg where
  | errNoModelPath (name : String)
  | infoExists (name : String) (sp : FsPath)
  | infoDownloaded (name : String)
  | errDownloadFailed (name : String)
deriving DecidableEq

/-- Outcome of download_model: final filesystem, the URLs passed to
urlretrieve in order, the log, and the returned value (a path, or None). -/
structure DLResult where
  fs : FS
  accessed : List String
  logs : List LogMsg
  result : Option FsPath
deriving DecidableEq

/-- The download loop of download_model over zip(files, model_path):
urlretrieve each URL into save_path/file; the first failure is caught,
logged, and ends the call with None, keeping earlier files. -/
def downloadFiles (net : String → Bool) (name : String) (sp : FsPath)
    (logger : Bool) : List (String × String) → FS → List String → List LogMsg → DLResult
  | [], fs, acc, logs => ⟨fs, acc, logs, some sp⟩
  | (fname, url) :: rest, fs, acc, logs =>
    if net url then
      downloadFiles net name sp logger rest (addFile fs (sp ++ [fname]))
        (acc ++ [url]) (logs ++ (if logger then [LogMsg.infoDownloaded name] else []))
    else
      ⟨fs, acc ++ [url], logs ++ (if logger then [LogMsg.errDownloadFailed name] else []), none⟩

/-- One manifest entry: the list of remote file URLs (other metadata of the
JSON object is irrelevant to the module and elided). -/
structure ModelData where
  modelPath : List String
deriving DecidableEq

/-- The models.json manifest: architecture name to model name to entry. -/
abbrev Manifest := List (String × List (String × ModelData))

/-- download_model after the model_path resolution: resolve save_path,
makedirs if absent, compute the expected file names, return early when
model_exists_in_package (checked with its default save_path) holds,
otherwise run the download loop. -/
def downloadResolved (uvr : FsPath) (net : String → Bool)
    (model_name model_arch : String) (mp : List String)
    (save_path : Option FsPath) (logger : Bool) (fs : FS)
    (logs0 : List LogMsg) : DLResult :=
  let sp := save_path.getD (defaultSavePath uvr model_arch model_name)
  let fs1 := ensureDir fs sp
  let files := mp.map lastComp
  if model_exists_in_package uvr model_name model_arch none (some files) fs1 then
    ⟨fs1, [], logs0 ++ (if logger then [LogMsg.infoExists model_name sp] else []), some sp⟩
  else
    downloadFiles net model_name sp logger (files.zip mp) fs1 [] logs0

/-- download_model: when model_path is not given it is looked up in the
manifest (a missing architecture or model name is an uncaught KeyError);
then downloadResolved. -/
def download_model (uvr : FsPath) (models : Manifest) (net : String → Bool)
    (model_name model_arch : String) (model_path : Option (List String))
    (save_path : Option FsPath) (logger : Bool) (fs : FS) :
    Except OsError DLResult :=
  match model_path with
  | some mp => .ok (downloadResolved uvr net model_name model_arch mp save_path logger fs [])
  | none =>
    match List.lookup model_arch models with
    | none => .error .keyError
    | some archModels =>
      match List.lookup model_name archModels with
      | none => .error .keyError
      | some md =>
        .ok (downloadResolved uvr net model_name model_arch md.modelPath save_path
          logger fs (if logger then [LogMsg.errNoModelPath model_name] else []))

/-- Inner loop of download_all_models over the models of one architecture,
threading the filesystem, access trace and log through the download_model
calls and collecting name-to-result pairs. -/
def processModels (uvr : FsPath) (models : Manifest) (net : String → Bool)
    (arch : String) (save_path : Option FsPath) (logger : Bool) :
    List (String × ModelData) → FS → List String → List LogMsg →
    Except OsError (FS × List String × List LogMsg × List (String × Option FsPath))
  | [], fs, acc, logs => .ok (fs, acc, logs, [])
  | (nm, md) :: rest, fs, acc, logs =>
    match download_model uvr models net nm arch (some md.modelPath) save_path logger fs with
    | .error e => .error e
    | .ok r =>
      match processModels uvr models net arch save_path logger rest r.fs
          (acc ++ r.accessed) (logs ++ r.logs) with
      | .error e => .error e
      | .ok (fs2, acc2, logs2, vals) => .ok (fs2, acc2, logs2, (nm, r.result) :: vals)

/-- Outer loop of download_all_models over the architectures. -/
def processArchs (uvr : FsPath) (models : Manifest) (net : String → Bool)
    (save_path : Option FsPath) (logger : Bool) :
    List (String × List (String × ModelData)) → FS → List String → List LogMsg →
    Except OsError (FS × List String × List LogMsg ×
      List (String × List (String × Option FsPath)))
  | [], fs, acc, logs => .ok (fs, acc, logs, [])
  | (arch, ms) :: rest, fs, acc, logs =>
    match processModels uvr models net arch save_path logger ms fs acc logs with
    | .error e => .error e
    | .ok (fs1, acc1, logs1, vals) =>
      match processArchs uvr models net save_path logger rest fs1 acc1 logs1 with
      | .error e => .error e
      | .ok (fs2, acc2, logs2, archVals) =>
        .ok (fs2, acc2, logs2, (arch, vals) :: archVals)

/-- download_all_models on a supplied manifest: iterate it, call
download_model per entry (passing the entry's model_path and the shared
save_path through), and collect the per-entry results. -/
def download_all_models (uvr : FsPath) (net : String → Bool) (manifest : Manifest)
    (save_path : Option FsPath) (logger : Bool) (fs : FS) :
    Except OsError (FS × List String × List LogMsg ×
      List (String × List (String × Option FsPath))) :=
  processArchs uvr manifest net save_path logger manifest fs [] []

/-- The log the download loop accumulates when the first n files succeed and
the next one fails. -/
def dlFailLogs (logger : Bool) (name : String) (n : Nat) : List LogMsg :=
  if logger then
    List.replicate n (LogMsg.infoDownloaded name) ++ [LogMsg.errDownloadFailed name]
  else []

/-- A model whose name carries an extension, fully downloaded at its own
save path (which uses the unstripped name). -/
def fsDotted : FS := ⟨[["models_dir", "mdx", "weights", "model.onnx", "f.bin"]], []⟩

/-- A dot-free model fully downloaded at its conventional save path. -/
def fsPlain : FS := ⟨[["models_dir", "A", "weights", "model", "f.bin"]], []⟩

/-- A filesystem where the path d names a regular file. -/
def fsFileOnly : FS := ⟨[["d"]], []⟩

/-- A filesystem with a single empty directory d. -/
def fsDirOnly : FS := ⟨[], [["d"]]⟩

/-- A directory d holding the single file model.onnx. -/
def fsExact : FS := ⟨[["d", "model.onnx"]], []⟩

/-- A directory d/m holding a subdirectory named fake.onnx (listed first)
and a regular file real.onnx. -/
def fsShadow : FS := ⟨[["d", "m", "fake.onnx", "inner"], ["d", "m", "real.onnx"]], []⟩

/-- A directory d/m holding the single model file w.onnx. -/
def fsSub : FS := ⟨[["d", "m", "w.onnx"]], []⟩

/-- The conventional weights directory of model m, present but empty. -/
def fsWeights : FS := ⟨[], [["models_dir", "A", "weights", "m"]]⟩

/-- The directory a.b (the claimed stripping of a.b.onnx), present. -/
def fsAB : FS := ⟨[], [["models_dir", "x", "weights", "a.b"]]⟩

/-- The empty filesystem. -/
def fsEmpty : FS := ⟨[], []⟩

/-- A network where every URL succeeds. -/
def netUp : String → Bool := fun _ => true

/-- A network where every URL fails. -/
def netDown : String → Bool := fun _ => false

/-- A network where exactly one URL succeeds. -/
def netOne : String → Bool := fun s => s == "http://h/x.bin"

/-- Specification relation for the inner loop of download_all_models: the
result list pairs each model name, in order, with the result of the
download_model call made at the filesystem the previous entries produced (the
state is threaded, so each value — in particular None on a failed download —
is the one that entry's actual call returned), and the final filesystem is
the state after the last entry. -/
def modelsSpec (uvr : FsPath) (M : Manifest) (net : String → Bool) (arch : String)
    (sp : Option FsPath) (logger : Bool) :
    FS → List (String × ModelData) → List (String × Option FsPath) → FS → Prop
  | fs, [], vals, fs2 => vals = [] ∧ fs2 = fs
  | fs, (nm, md) :: l, vals, fs2 =>
    ∃ r rest,
      download_model uvr M net nm arch (some md.modelPath) sp logger fs = .ok r
      ∧ vals = (nm, r.result) :: rest
      ∧ modelsSpec uvr M net arch sp logger r.fs l rest fs2

/-- Specification relation for the outer loop of download_all_models: the
architectures in manifest order, each handled by modelsSpec starting from the
filesystem the previous architecture left behind, with the model-name keys
preserved per architecture. -/
def archsSpec (uvr : FsPath) (M : Manifest) (net : String → Bool)
    (sp : Option FsPath) (logger : Bool) :
    FS → List (String × List (String × ModelData)) →
    List (String × List (String × Option FsPath)) → FS → Prop
  | fs, [], out, fs2 => out = [] ∧ fs2 = fs
  | fs, (arch, ms) :: l, out, fs2 =>
    ∃ fs1 vals rest,
      modelsSpec uvr M net arch sp logger fs ms vals fs1
      ∧ vals.map Prod.fst = ms.map Prod.fst
      ∧ out = (arch, vals) :: rest
      ∧ archsSpec uvr M net sp logger fs1 l rest fs2

example : strSplitDot "a.b.onnx" = ["a", "b", "onnx"] := by decide
example : strSplitDot "model" = ["model"] := by decide
example : lastComp "https://abc/bcd/model.pt" = "model.pt" := by decide
example : splitext "model.onnx" = ("model", ".onnx") := by decide
example : splitext "a.b.c" = ("a.b", ".c") := by decide
example : splitext ".onnx" = (".onnx", "") := by decide
example : splitext "model" = ("model", "") := by decide
example : isModelFile "w.onnx" = true := by decide
example : isModelFile "w.txt" = false := by decide

theorem isfile_iff_mem (fs : FS) (p : FsPath) : fs.isfile p = true ↔ p ∈ fs.files := by
  simp [FS.isfile]

theorem ne_append_singleton (d : FsPath) (x : String) : d ≠ d ++ [x] := by
  intro h
  have h2 := congrArg List.length h
  simp at h2

theorem isdir_of_isfile_child (fs : FS) (d : FsPath) (x : String)
    (h : fs.isfile (d ++ [x]) = true) : fs.isdir d = true := by
  rw [isfile_iff_mem] at h
  simp only [FS.isdir, Bool.or_eq_true, List.any_eq_true]
  exact Or.inr ⟨d ++ [x], h, by simp [ne_append_singleton d x]⟩

theorem isdir_of_isdir_child (fs : FS) (d : FsPath) (x : String)
    (h : fs.isdir (d ++ [x]) = true) : fs.isdir d = true := by
  simp only [FS.isdir, Bool.or_eq_true, List.any_eq_true, Bool.and_eq_true,
    List.isPrefixOf_iff_prefix, bne_iff_ne, ne_eq] at h ⊢
  rcases h with ⟨b, hb, hp⟩ | ⟨f, hf, hp, hne⟩
  · exact Or.inl ⟨b, hb, (List.prefix_append d [x]).trans hp⟩
  · refine Or.inr ⟨f, hf, (List.prefix_append d [x]).trans hp, ?_⟩
    intro hdf
    subst hdf
    have hlen := hp.length_le
    simp at hlen

theorem pathExists_of_isfile_child (fs : FS) (d : FsPath) (x : String)
    (h : fs.isfile (d ++ [x]) = true) : fs.pathExists d = true := by
  simp [FS.pathExists, isdir_of_isfile_child fs d x h]

theorem ensureDir_files (fs : FS) (p : FsPath) : (ensureDir fs p).files = fs.files := by
  unfold ensureDir
  split <;> rfl

/-- C4 counterexample: when the directory argument names a regular file and
the model name has no extension, get_model_path raises a not-a-directory
error instead of returning a path or none. -/
theorem get_model_path_raises_on_file_as_dir :
    get_model_path fsFileOnly "model" ["d"] = .error OsError.notADir := by
  rfl

/-- C4 (amended): get_model_path never raises provided the directory argument
is a directory or does not exist; a directory argument that names an existing
regular file makes the final os.listdir raise when the name has no
extension. -/
theorem get_model_path_total_on_dirs (fs : FS) (name : String) (dir : FsPath)
    (h : fs.isdir dir = true ∨ fs.pathExists dir = false) :
    ∃ r, get_model_path fs name dir = .ok r := by
  unfold get_model_path
  rcases h with h | h
  · have hex : ¬ (fs.pathExists dir = false) := by
      simp [FS.pathExists, h]
    rw [if_neg hex]
    by_cases hext : (splitext name).2 ≠ ""
    · rw [if_pos hext]
      split <;> exact ⟨_, rfl⟩
    · rw [if_neg hext]
      split
      · exact ⟨_, rfl⟩
      · rw [listdir, if_pos h]
        cases hfind : List.find? (scanPred fs dir name) (fs.childNames dir) with
        | none => exact ⟨none, by simp [hfind]⟩
        | some f => exact ⟨some (dir ++ [f]), by simp [hfind]⟩
  · rw [if_pos h]
    exact ⟨none, rfl⟩

/-- C4 (amended) witness at a concrete existing directory. -/
theorem get_model_path_total_on_dirs_witness :
    ∃ r, get_model_path fsDirOnly "m" ["d"] = .ok r :=
  get_model_path_total_on_dirs fsDirOnly "m" ["d"] (Or.inl (by decide))

/-- C5: for a name that already carries an extension, get_model_path returns
the exact path dir/name when that path is a regular file, and none otherwise,
without any subdirectory or base-name fallback. -/
theorem get_model_path_with_extension (fs : FS) (name : String) (dir : FsPath)
    (h : (splitext name).2 ≠ "") :
    get_model_path fs name dir =
      .ok (if fs.isfile (dir ++ [name]) = true then some (dir ++ [name]) else none) := by
  unfold get_model_path
  by_cases hex : fs.pathExists dir = false
  · rw [if_pos hex]
    have hf : fs.isfile (dir ++ [name]) = false := by
      cases hc : fs.isfile (dir ++ [name])
      · rfl
      · exact absurd hex (by simp [FS.pathExists, isdir_of_isfile_child fs dir name hc])
    rw [hf]
    simp
  · rw [if_neg hex, if_pos h]
    have hcond : (fs.pathExists (dir ++ [name]) && fs.isfile (dir ++ [name])) =
        fs.isfile (dir ++ [name]) := by
      cases hf : fs.isfile (dir ++ [name])
      · simp
      · simp [FS.pathExists, hf]
    rw [hcond]
    cases hf : fs.isfile (dir ++ [name]) <;> simp [hf]

/-- C5 witness: the exact file is present and returned. -/
theorem get_model_path_with_extension_witness :
    get_model_path fsExact "model.onnx" ["d"] = .ok (some ["d", "model.onnx"]) := by
  rw [get_model_path_with_extension fsExact "model.onnx" ["d"] (by decide)]
  rfl

/-- C6 counterexample: the subdirectory d/m holds the regular model file
real.onnx, yet get_model_path returns d/m/fake.onnx, the path of a
subdirectory entry that merely ends in .onnx and is not a file — the
returned path is not the path of such a file. -/
theorem get_model_path_shadowed_subdir_entry :
    get_model_path fsShadow "m" ["d"] = .ok (some ["d", "m", "fake.onnx"])
    ∧ fsShadow.isfile ["d", "m", "fake.onnx"] = false
    ∧ fsShadow.isdir ["d", "m"] = true
    ∧ fsShadow.isfile ["d", "m", "real.onnx"] = true
    ∧ isModelFile "real.onnx" = true :=
  ⟨rfl, by decide, by decide, by decide, by decide⟩

/-- C6 (amended): for a name without extension, when the first entry of the
same-named subdirectory with a model extension is a regular file,
get_model_path returns that file's path; and only when the subdirectory is
absent or lists no entry with a model extension does it scan the directory
itself for a file whose base name equals the given name. -/
theorem get_model_path_subdir_priority (fs : FS) (name : String) (dir : FsPath)
    (e : String) :
    ((splitext name).2 = "" →
      fs.isdir (dir ++ [name]) = true →
      (fs.childNames (dir ++ [name])).find? isModelFile = some e →
      fs.isfile (dir ++ [name] ++ [e]) = true →
      get_model_path fs name dir = .ok (some (dir ++ [name] ++ [e]))
        ∧ isModelFile e = true)
    ∧ ((splitext name).2 = "" →
      fs.isdir dir = true →
      (fs.isdir (dir ++ [name]) = false ∨
        (fs.childNames (dir ++ [name])).find? isModelFile = none) →
      get_model_path fs name dir =
        .ok (((fs.childNames dir).find? (scanPred fs dir name)).map
          (fun f => dir ++ [f]))) := by
  constructor
  · intro hext hsub hfind _hfile
    constructor
    · unfold get_model_path
      have hdir : fs.isdir dir = true := isdir_of_isdir_child fs dir name hsub
      have hex : ¬ (fs.pathExists dir = false) := by simp [FS.pathExists, hdir]
      rw [if_neg hex, if_neg (by simp [hext]), if_pos hsub, hfind]
    · exact List.find?_some hfind
  · intro hext hdir hsub
    unfold get_model_path
    have hex : ¬ (fs.pathExists dir = false) := by simp [FS.pathExists, hdir]
    rw [if_neg hex, if_neg (by simp [hext])]
    have hscrut : (if fs.isdir (dir ++ [name]) = true then
        (fs.childNames (dir ++ [name])).find? isModelFile else none) = none := by
      by_cases hc : fs.isdir (dir ++ [name]) = true
      · rw [if_pos hc]
        rcases hsub with h | h
        · rw [hc] at h
          exact absurd h (by simp)
        · exact h
      · rw [if_neg hc]
    rw [hscrut, listdir, if_pos hdir]
    cases hfind : List.find? (scanPred fs dir name) (fs.childNames dir) <;> simp [hfind]

/-- C6 (amended) witness: d/m contains the single model file w.onnx, and it
is returned. -/
theorem get_model_path_subdir_priority_witness :
    get_model_path fsSub "m" ["d"] = .ok (some ["d", "m", "w.onnx"]) :=
  (((get_model_path_subdir_priority fsSub "m" ["d"] "w.onnx").1
    (by decide) (by decide) (by decide) (by decide)).1 : _)

theorem downloadFiles_first_failure (net : String → Bool) (name : String) (sp : FsPath)
    (logger : Bool) (fu : String × String) (rest : List (String × String))
    (prs : List (String × String)) :
    ∀ (fs : FS) (acc : List String) (logs : List LogMsg),
    (∀ p ∈ prs, net p.2 = true) → net fu.2 = false →
    downloadFiles net name sp logger (prs ++ fu :: rest) fs acc logs =
      ⟨⟨fs.files ++ prs.map (fun p => sp ++ [p.1]), fs.dirs⟩,
        acc ++ prs.map Prod.snd ++ [fu.2],
        logs ++ dlFailLogs logger name prs.length, none⟩ := by
  induction prs with
  | nil =>
    intro fs acc logs _ hfu
    obtain ⟨fname, url⟩ := fu
    simp only [List.nil_append]
    unfold downloadFiles
    simp [hfu, dlFailLogs]
  | cons p prs ih =>
    intro fs acc logs hpre hfu
    obtain ⟨fname, url⟩ := p
    have hp : net url = true := hpre (fname, url) (List.mem_cons_self _ _)
    simp only [List.cons_append]
    unfold downloadFiles
    rw [if_pos (by rw [hp])]
    rw [ih _ _ _ (fun q hq => hpre q (List.mem_cons_of_mem _ hq)) hfu]
    cases logger <;>
      simp [addFile, dlFailLogs, List.replicate_succ, List.append_assoc]

theorem zip_lastComp (urls : List String) :
    (urls.map lastComp).zip urls = urls.map (fun v => (lastComp v, v)) := by
  have h := List.zip_map' lastComp id urls
  simpa using h

theorem map_snd_tag (l : List String) :
    List.map Prod.snd (List.map (fun v => (lastComp v, v)) l) = l := by
  induction l with
  | nil => rfl
  | cons a l ih => simp [ih]

theorem map_path_tag (sp : FsPath) (l : List String) :
    List.map (fun p => sp ++ [p.1]) (List.map (fun v => (lastComp v, v)) l)
      = List.map (fun v => sp ++ [lastComp v]) l := by
  induction l with
  | nil => rfl
  | cons a l ih => simp [ih]

/-- C2: a network error during downloading is caught (the call still returns
ok, with value None), the error is logged when a logger is present, the URLs
after the first failing one are never fetched, and the files fetched before
the failure stay on disk. -/
theorem download_model_network_failure (uvr : FsPath) (M : Manifest)
    (net : String → Bool) (name arch : String) (preU : List String) (u : String)
    (postU : List String) (sp : Option FsPath) (logger : Bool) (fs : FS)
    (hpre : ∀ v ∈ preU, net v = true) (hu : net u = false)
    (hmep : model_exists_in_package uvr name arch none
      (some ((preU ++ u :: postU).map lastComp))
      (ensureDir fs (sp.getD (defaultSavePath uvr arch name))) = false) :
    ∃ r, download_model uvr M net name arch (some (preU ++ u :: postU)) sp logger fs
        = .ok r
      ∧ r.result = none
      ∧ r.accessed = preU ++ [u]
      ∧ (logger = true → LogMsg.errDownloadFailed name ∈ r.logs)
      ∧ (∀ v ∈ preU, (sp.getD (defaultSavePath uvr arch name)) ++ [lastComp v]
          ∈ r.fs.files) := by
  unfold download_model downloadResolved
  simp only [hmep, Bool.false_eq_true, if_false]
  rw [zip_lastComp, List.map_append, List.map_cons]
  rw [downloadFiles_first_failure net name _ logger (lastComp u, u)
    (postU.map (fun v => (lastComp v, v))) (preU.map (fun v => (lastComp v, v)))
    _ _ _ ?hpre hu]
  case hpre =>
    intro p hp
    obtain ⟨v, hv, rfl⟩ := List.mem_map.1 hp
    exact hpre v hv
  refine ⟨_, rfl, rfl, ?_, ?_, ?_⟩
  · show [] ++ List.map Prod.snd (List.map (fun v => (lastComp v, v)) preU)
        ++ [(lastComp u, u).2] = preU ++ [u]
    rw [map_snd_tag]
    simp
  · intro hl
    simp [dlFailLogs, hl]
  · intro v hv
    show _ ∈ (FS.mk _ _).files
    simp only [ensureDir_files, map_path_tag]
    refine List.mem_append_right _ ?_
    exact List.mem_map.2 ⟨v, hv, rfl⟩

/-- C2 witness: of three URLs the first succeeds, the second fails, the third
is never fetched; the first file stays on disk and the error is logged. -/
theorem download_model_network_failure_witness :
    ∃ r, download_model [] [] netOne "m" "A"
        (some ["http://h/x.bin", "http://h/y.bin", "http://h/z.bin"]) none true fsEmpty
        = .ok r
      ∧ r.result = none
      ∧ r.accessed = ["http://h/x.bin"] ++ ["http://h/y.bin"]
      ∧ (true = true → LogMsg.errDownloadFailed "m" ∈ r.logs)
      ∧ (∀ v ∈ ["http://h/x.bin"],
          (Option.getD none (defaultSavePath [] "A" "m")) ++ [lastComp v]
            ∈ r.fs.files) :=
  download_model_network_failure [] [] netOne "m" "A" ["http://h/x.bin"]
    "http://h/y.bin" ["http://h/z.bin"] none true fsEmpty
    (by decide) (by decide) (by decide)

/-- C3: with no urls supplied and no manifest entry for the architecture and
model name, download_model fails with an uncaught key-not-found error: it
neither returns None nor swallows the error. -/
theorem download_model_missing_manifest_entry (uvr : FsPath) (M : Manifest)
    (net : String → Bool) (name arch : String) (sp : Option FsPath)
    (logger : Bool) (fs : FS)
    (h : (List.lookup arch M).bind (fun ms => List.lookup name ms) = none) :
    download_model uvr M net name arch none sp logger fs = .error OsError.keyError := by
  cases hA : List.lookup arch M with
  | none =>
    unfold download_model
    rw [hA]
  | some ms =>
    rw [hA] at h
    simp only [Option.some_bind] at h
    unfold download_model
    rw [hA]
    change (match List.lookup name ms with
      | none => Except.error OsError.keyError
      | some md => Except.ok (downloadResolved uvr net name arch md.modelPath sp
          logger fs (if logger = true then [LogMsg.errNoModelPath name] else [])))
      = Except.error OsError.keyError
    rw [h]

/-- C3 witness: the empty manifest has no entry for any architecture. -/
theorem download_model_missing_manifest_entry_witness :
    download_model [] [] netUp "n" "demucs" none none false fsEmpty
      = .error OsError.keyError :=
  download_model_missing_manifest_entry [] [] netUp "n" "demucs" none false fsEmpty
    (by rfl)

/-- C1 counterexample: the model name model.onnx carries a dot, its expected
file f.bin is already present at the resolved save path, and yet
download_model fetches the URL again (the access trace is nonempty), because
the already-downloaded check looks at the extension-stripped directory
weights/model instead of weights/model.onnx. -/
theorem download_model_redownloads_dotted_name :
    download_model [] [] netUp "model.onnx" "mdx" (some ["http://h/f.bin"]) none false
        fsDotted
      = .ok ⟨⟨[["models_dir", "mdx", "weights", "model.onnx", "f.bin"],
               ["models_dir", "mdx", "weights", "model.onnx", "f.bin"]], []⟩,
          ["http://h/f.bin"], [], some ["models_dir", "mdx", "weights", "model.onnx"]⟩
    ∧ fsDotted.isfile (["models_dir", "mdx", "weights", "model.onnx"] ++ ["f.bin"])
        = true :=
  ⟨rfl, by decide⟩

/-- C1 (amended): for a model whose name contains no dot and whose expected
files are all present in the conventional save directory, download_model with
no explicit save_path performs no network access (the access trace is empty)
and returns the existing directory. -/
theorem download_model_local_complete_no_network (uvr : FsPath) (M : Manifest)
    (net : String → Bool) (name arch : String) (urls : List String)
    (logger : Bool) (fs : FS)
    (hname : (strSplitDot name).length = 1)
    (hne : urls ≠ [])
    (hfiles : ∀ u ∈ urls, defaultSavePath uvr arch name ++ [lastComp u] ∈ fs.files) :
    download_model uvr M net name arch (some urls) none logger fs
      = .ok ⟨fs, [],
          (if logger then [LogMsg.infoExists name (defaultSavePath uvr arch name)]
           else []),
          some (defaultSavePath uvr arch name)⟩ := by
  obtain ⟨u0, hu0⟩ : ∃ u, u ∈ urls := by
    cases urls with
    | nil => exact absurd rfl hne
    | cons a l => exact ⟨a, List.mem_cons_self a l⟩
  have hfile0 : fs.isfile (defaultSavePath uvr arch name ++ [lastComp u0]) = true :=
    (isfile_iff_mem _ _).2 (hfiles u0 hu0)
  have hdir : fs.isdir (defaultSavePath uvr arch name) = true :=
    isdir_of_isfile_child _ _ _ hfile0
  have hex : fs.pathExists (defaultSavePath uvr arch name) = true := by
    simp [FS.pathExists, hdir]
  have hstrip : stripDots name = name := by
    unfold stripDots
    rw [if_neg]
    simp [hname]
  have hmep : model_exists_in_package uvr name arch none
      (some (urls.map lastComp)) fs = true := by
    unfold model_exists_in_package mepDir
    simp only [Option.getD_none, hstrip, Bool.and_eq_true]
    constructor
    · rw [List.all_eq_true]
      intro f hf
      obtain ⟨u, hu, rfl⟩ := List.mem_map.1 hf
      exact (isfile_iff_mem _ _).2 (hfiles u hu)
    · exact hex
  have hed : ensureDir fs (defaultSavePath uvr arch name) = fs := by
    unfold ensureDir
    rw [if_pos hex]
  simp only [download_model, downloadResolved, Option.getD_none, hed, hmep,
    if_true, List.nil_append]

/-- C1 (amended) witness: the single expected file is present, the network
rejects every URL, and still the existing path is returned with an empty
access trace. -/
theorem download_model_local_complete_no_network_witness :
    download_model [] [] netDown "model" "A" (some ["http://h/f.bin"]) none false fsPlain
      = .ok ⟨fsPlain, [], [], some (defaultSavePath [] "A" "model")⟩ := by
  have h := download_model_local_complete_no_network [] [] netDown "model" "A"
    ["http://h/f.bin"] false fsPlain (by decide) (by decide) (by decide)
  exact h

theorem downloadFiles_accessed_extends (net : String → Bool) (name : String)
    (sp : FsPath) (logger : Bool) (pairs : List (String × String)) :
    ∀ (fs : FS) (acc : List String) (logs : List LogMsg), pairs ≠ [] →
    ∃ t, (downloadFiles net name sp logger pairs fs acc logs).accessed = acc ++ t
      ∧ t ≠ [] := by
  induction pairs with
  | nil =>
    intro fs acc logs h
    exact absurd rfl h
  | cons p pairs ih =>
    intro fs acc logs _
    obtain ⟨fname, url⟩ := p
    unfold downloadFiles
    by_cases hn : net url = true
    · rw [if_pos hn]
      by_cases hp : pairs = []
      · subst hp
        refine ⟨[url], ?_, by simp⟩
        unfold downloadFiles
        rfl
      · obtain ⟨t, ht, htne⟩ := ih _ _ _ hp
        refine ⟨url :: t, ?_, by simp⟩
        rw [ht]
        simp
    · rw [if_neg hn]
      exact ⟨[url], rfl, by simp⟩

/-- C10: with an explicit save_path, the already-downloaded check is made
against the default conventional directory derived from the architecture and
(stripped) model name, not against the given save_path: the call returns the
caller's save_path without any network access exactly when
model_exists_in_package holds at the default location, whatever the explicit
save_path contains. -/
theorem download_model_checks_default_location (uvr : FsPath) (M : Manifest)
    (net : String → Bool) (name arch : String) (urls : List String) (sp : FsPath)
    (logger : Bool) (fs : FS) (hne : urls ≠ []) :
    (∃ r, download_model uvr M net name arch (some urls) (some sp) logger fs = .ok r
        ∧ r.accessed = [] ∧ r.result = some sp)
    ↔ model_exists_in_package uvr name arch none (some (urls.map lastComp))
        (ensureDir fs sp) = true := by
  constructor
  · rintro ⟨r, hr, hacc, _hres⟩
    cases hm : model_exists_in_package uvr name arch none (some (urls.map lastComp))
        (ensureDir fs sp) with
    | true => rfl
    | false =>
      exfalso
      simp only [download_model, downloadResolved, Option.getD_some, hm,
        Bool.false_eq_true, if_false, Except.ok.injEq] at hr
      have hpairs : (urls.map lastComp).zip urls ≠ [] := by
        cases urls with
        | nil => exact absurd rfl hne
        | cons a l => simp
      obtain ⟨t, ht, htne⟩ := downloadFiles_accessed_extends net name sp logger _
        (ensureDir fs sp) [] [] hpairs
      rw [hr, hacc] at ht
      exact htne ht.symm
  · intro hmep
    refine ⟨⟨ensureDir fs sp, [],
      [] ++ (if logger then [LogMsg.infoExists name sp] else []), some sp⟩, ?_, rfl, rfl⟩
    simp only [download_model, downloadResolved, Option.getD_some, hmep, if_true]

/-- C10 witness: the files are present at the default location, the network
rejects everything, and the unrelated explicit save_path is returned with an
empty access trace. -/
theorem download_model_checks_default_location_witness :
    ∃ r, download_model [] [] netDown "model" "A" (some ["http://h/f.bin"])
        (some ["elsewhere"]) false fsPlain = .ok r
      ∧ r.accessed = [] ∧ r.result = some ["elsewhere"] :=
  (download_model_checks_default_location [] [] netDown "model" "A"
    ["http://h/f.bin"] ["elsewhere"] false fsPlain (by decide)).mpr (by decide)

/-- C8: with an explicit file list, a single missing file makes model_exists
false even when the directory exists; when the check returns true every listed
file is present; and with no file list the check is exactly directory
existence. -/
theorem model_exists_files_semantics (uvr : FsPath) (name arch : String)
    (sp : Option FsPath) (fl : List String) (fs : FS) :
    ((∃ f ∈ fl, fs.isfile (mepDir uvr name arch sp ++ [f]) = false) →
      model_exists_in_package uvr name arch sp (some fl) fs = false)
    ∧ (model_exists_in_package uvr name arch sp (some fl) fs = true →
      ∀ f ∈ fl, fs.isfile (mepDir uvr name arch sp ++ [f]) = true)
    ∧ model_exists_in_package uvr name arch sp none fs
        = fs.pathExists (mepDir uvr name arch sp) := by
  refine ⟨?_, ?_, ?_⟩
  · rintro ⟨f, hf, hmiss⟩
    unfold model_exists_in_package
    have hall : fl.all (fun g => fs.isfile (mepDir uvr name arch sp ++ [g])) = false :=
      List.all_eq_false.2 ⟨f, hf, by simp [hmiss]⟩
    simp [hall]
  · intro h f hf
    unfold model_exists_in_package at h
    rw [Bool.and_eq_true] at h
    have h2 := List.all_eq_true.1 h.1 f hf
    simpa using h2
  · unfold model_exists_in_package
    simp

/-- C8 witness: directory present but the listed file missing gives false;
with no file list the same call reduces to directory existence. -/
theorem model_exists_files_semantics_witness :
    model_exists_in_package [] "m" "A" none (some ["a.bin"]) fsWeights = false
    ∧ model_exists_in_package [] "m" "A" none none fsWeights
        = fsWeights.pathExists (mepDir [] "m" "A" none) :=
  ⟨(model_exists_files_semantics [] "m" "A" none ["a.bin"] fsWeights).1
      ⟨"a.bin", by decide, by decide⟩,
    (model_exists_files_semantics [] "m" "A" none ["a.bin"] fsWeights).2.2⟩

/-- C9 counterexample: for the name a.b.onnx the claim predicts the lookup
directory weights/a.b, which exists here, yet model_exists_in_package is
false — the code stripped everything from the first dot and checked
weights/a instead. -/
theorem model_exists_checks_first_dot_directory :
    model_exists_in_package [] "a.b.onnx" "x" none none fsAB = false
    ∧ fsAB.pathExists ["models_dir", "x", "weights", "a.b"] = true :=
  ⟨by decide, by decide⟩

/-- C9 (amended): for a name containing a dot, the directory used for the
lookup is the conventional path built from the substring before the FIRST
dot (name.split('.')[0]), so a.b.onnx resolves to directory a, not a.b. -/
theorem mepDir_strips_at_first_dot (uvr : FsPath) (name arch : String)
    (h : 1 < (strSplitDot name).length) :
    mepDir uvr name arch none
      = uvr ++ ["models_dir", arch, "weights", (strSplitDot name).headD name] := by
  unfold mepDir defaultSavePath stripDots
  rw [if_pos h]
  rfl

/-- C9 (amended) witness at the name a.b.onnx. -/
theorem mepDir_strips_at_first_dot_witness :
    mepDir [] "a.b.onnx" "x" none
      = [] ++ ["models_dir", "x", "weights", (strSplitDot "a.b.onnx").headD "a.b.onnx"] :=
  mepDir_strips_at_first_dot [] "a.b.onnx" "x" (by decide)

theorem download_model_some_ok (uvr : FsPath) (M : Manifest) (net : String → Bool)
    (name arch : String) (mp : List String) (sp : Option FsPath) (logger : Bool)
    (fs : FS) :
    download_model uvr M net name arch (some mp) sp logger fs
      = .ok (downloadResolved uvr net name arch mp sp logger fs []) := rfl

theorem processModels_cons (uvr : FsPath) (M : Manifest) (net : String → Bool)
    (arch : String) (sp : Option FsPath) (logger : Bool) (nm : String)
    (md : ModelData) (l : List (String × ModelData)) (fs : FS)
    (acc : List String) (logs : List LogMsg) :
    processModels uvr M net arch sp logger ((nm, md) :: l) fs acc logs
      = (match processModels uvr M net arch sp logger l
            (downloadResolved uvr net nm arch md.modelPath sp logger fs []).fs
            (acc ++ (downloadResolved uvr net nm arch md.modelPath sp logger fs []).accessed)
            (logs ++ (downloadResolved uvr net nm arch md.modelPath sp logger fs []).logs) with
         | .error e => .error e
         | .ok (fs2, acc2, logs2, vals) =>
            .ok (fs2, acc2, logs2,
              (nm, (downloadResolved uvr net nm arch md.modelPath sp logger fs []).result)
                :: vals)) := rfl

theorem processArchs_cons_ok (uvr : FsPath) (M : Manifest) (net : String → Bool)
    (sp : Option FsPath) (logger : Bool) (arch : String)
    (ms : List (String × ModelData))
    (l : List (String × List (String × ModelData))) (fs fs1 : FS)
    (acc acc1 : List String) (logs logs1 : List LogMsg)
    (vals : List (String × Option FsPath))
    (h : processModels uvr M net arch sp logger ms fs acc logs
      = .ok (fs1, acc1, logs1, vals)) :
    processArchs uvr M net sp logger ((arch, ms) :: l) fs acc logs
      = (match processArchs uvr M net sp logger l fs1 acc1 logs1 with
         | .error e => .error e
         | .ok (fs2, acc2, logs2, archVals) =>
            .ok (fs2, acc2, logs2, (arch, vals) :: archVals)) := by
  conv_lhs => unfold processArchs
  rw [h]

theorem processModels_spec (uvr : FsPath) (M : Manifest) (net : String → Bool)
    (arch : String) (sp : Option FsPath) (logger : Bool)
    (l : List (String × ModelData)) :
    ∀ (fs : FS) (acc : List String) (logs : List LogMsg),
    ∃ fs2 acc2 logs2 vals,
      processModels uvr M net arch sp logger l fs acc logs = .ok (fs2, acc2, logs2, vals)
      ∧ vals.map Prod.fst = l.map Prod.fst
      ∧ modelsSpec uvr M net arch sp logger fs l vals fs2 := by
  induction l with
  | nil =>
    intro fs acc logs
    exact ⟨fs, acc, logs, [], rfl, rfl, rfl, rfl⟩
  | cons p l ih =>
    intro fs acc logs
    obtain ⟨nm, md⟩ := p
    obtain ⟨fs2, acc2, logs2, vals, heq, hkeys, hspec⟩ :=
      ih (downloadResolved uvr net nm arch md.modelPath sp logger fs []).fs
        (acc ++ (downloadResolved uvr net nm arch md.modelPath sp logger fs []).accessed)
        (logs ++ (downloadResolved uvr net nm arch md.modelPath sp logger fs []).logs)
    refine ⟨fs2, acc2, logs2,
      (nm, (downloadResolved uvr net nm arch md.modelPath sp logger fs []).result)
        :: vals, ?_, by simp [hkeys], ?_⟩
    · rw [processModels_cons, heq]
    · exact ⟨downloadResolved uvr net nm arch md.modelPath sp logger fs [], vals,
        rfl, rfl, hspec⟩

theorem processArchs_spec (uvr : FsPath) (M : Manifest) (net : String → Bool)
    (sp : Option FsPath) (logger : Bool)
    (l : List (String × List (String × ModelData))) :
    ∀ (fs : FS) (acc : List String) (logs : List LogMsg),
    ∃ fs2 acc2 logs2 out,
      processArchs uvr M net sp logger l fs acc logs = .ok (fs2, acc2, logs2, out)
      ∧ out.map Prod.fst = l.map Prod.fst
      ∧ archsSpec uvr M net sp logger fs l out fs2 := by
  induction l with
  | nil =>
    intro fs acc logs
    exact ⟨fs, acc, logs, [], rfl, rfl, rfl, rfl⟩
  | cons p l ih =>
    intro fs acc logs
    obtain ⟨arch, ms⟩ := p
    obtain ⟨fs1, acc1, logs1, vals, heq1, hkeys1, hspec1⟩ :=
      processModels_spec uvr M net arch sp logger ms fs acc logs
    obtain ⟨fs2, acc2, logs2, out, heq2, hkeys2, hspec2⟩ := ih fs1 acc1 logs1
    refine ⟨fs2, acc2, logs2, (arch, vals) :: out, ?_, by simp [hkeys2],
      fs1, vals, out, hspec1, hkeys1, rfl, hspec2⟩
    rw [processArchs_cons_ok uvr M net sp logger arch ms l fs fs1 acc acc1 logs logs1 vals heq1, heq2]

/-- C7: download_all_models returns a mapping with exactly the manifest's
architecture keys and, within each architecture, exactly its model-name keys
(in order); archsSpec ties each value to the download_model call made at the
filesystem state actually threaded through the iteration, so a value is the
path that entry's call returned and is None exactly when that call's download
failed. -/
theorem download_all_models_keys_and_values (uvr : FsPath) (net : String → Bool)
    (manifest : Manifest) (sp : Option FsPath) (logger : Bool) (fs : FS) :
    ∃ fs2 acc logs out,
      download_all_models uvr net manifest sp logger fs = .ok (fs2, acc, logs, out)
      ∧ out.map Prod.fst = manifest.map Prod.fst
      ∧ archsSpec uvr manifest net sp logger fs manifest out fs2 :=
  processArchs_spec uvr manifest net sp logger manifest fs [] []
